import Mathlib

/-
Verification of the slip-rs heap subsystem (src/memory.rs) against its
natural-language specification.

The embedding mirrors src/memory.rs:
- Header is a 64-bit word produced by the bitfield layout
  bit 0: is_raw, bits 1..7: tag, bits 8..63: size.
- Memory owns a backing word array (modelled as a total function from
  Int offsets to word values, since the Rust code performs unchecked
  raw-pointer arithmetic that can leave the backing slice) together with
  a free offset (free_pointer minus the slice base) and the slice
  capacity.
- Element mirrors the Element trait: a size (isize in Rust, hence Int)
  and a tag (usize, hence Nat).
- allocate_ mirrors Memory::allocate_: it writes the header word at the
  current free offset, advances the free offset by size + 1 where
  size = T::size() + additional_size, and returns the old free offset as
  the pointer. No capacity check is performed, exactly as in the source.
- Ptr.cast / Ptr.cast_mut mirror the tag-checked casts, returning the
  retyped pointer on success and an error value otherwise.
- Ptr.modify mirrors Ptr::modify, which unwraps cast_mut; the unwrap
  panic on a failed cast is modelled as Option.none.
- Memory.collect mirrors Memory::collect, whose body is empty.
-/

namespace Slip

/-- Bit value of a Bool, used for the is_raw flag of the header word. -/
def boolBit (b : Bool) : Nat := cond b 1 0

/-- Header codec, encoding direction: packs (is_raw, tag, size) into one
64-bit word with bit 0 = is_raw, bits 1..7 = tag, bits 8..63 = size.
Fields are masked to their widths as the bit layout forces. -/
def Header.encode (is_raw : Bool) (tag : Nat) (size : Nat) : Nat :=
  boolBit is_raw + 2 * (tag % 128) + 256 * (size % 72057594037927936)

/-- Header codec, decoding the is_raw flag (bit 0). -/
def Header.decodeIsRaw (w : Nat) : Bool := w % 2 == 1

/-- Header codec, decoding the tag field (bits 1..7). -/
def Header.decodeTag (w : Nat) : Nat := (w / 2) % 128

/-- Header codec, decoding the size field (bits 8..63). -/
def Header.decodeSize (w : Nat) : Nat := (w / 256) % 72057594037927936

/-- Header::initialize from src/memory.rs: builds the header word from
is_raw, tag and size via the bitfield setters. -/
def Header.init (is_raw : Bool) (tag : Nat) (size : Nat) : Nat :=
  Header.encode is_raw tag size

/-- The Element trait of src/memory.rs: a chunk type declares a payload
size (isize in Rust) and a tag (usize). -/
structure Element where
  size : Int
  tag : Nat
  deriving DecidableEq

/-- Number chunk type from the tests in src/memory.rs: size 1, tag 2. -/
def numberElem : Element := ⟨1, 2⟩

/-- Pair chunk type from the tests in src/memory.rs: size 2, tag 1. -/
def pairElem : Element := ⟨2, 1⟩

/-- The Memory struct of src/memory.rs: a free offset into the backing
storage (free_pointer minus the slice base), the backing word array
(total over Int offsets, since the raw-pointer arithmetic of the source
is unchecked and can leave the slice), and the slice capacity. -/
structure Memory where
  data : Int → Nat
  free : Int
  capacity : Nat

/-- Memory::new: the free pointer starts at the base of the slice. -/
def Memory.new (init : Int → Nat) (cap : Nat) : Memory :=
  { data := init, free := 0, capacity := cap }

/-- Pointwise update of the backing storage, the model of the single raw
header write performed by allocate_. -/
def writeWord (d : Int → Nat) (i : Int) (v : Nat) : Int → Nat :=
  fun j => if j = i then v else d j

/-- Memory::allocate_ from src/memory.rs: size = T::size() + additional_size,
the free pointer is advanced by size + 1, the header word
Header::initialize(is_raw, T::tag(), size.unsigned_abs()) is written at the
old free offset, and the old free offset is returned as the pointer.
There is no capacity check and no failure path, exactly as in the source. -/
def Memory.allocate_ (m : Memory) (T : Element) (additional_size : Int)
    (is_raw : Bool) : Memory × Int :=
  let size := T.size + additional_size
  let current := m.free
  ({ m with
      free := current + (size + 1),
      data := writeWord m.data current (Header.init is_raw T.tag size.natAbs) },
   current)

/-- Memory::allocate: allocate_ with is_raw = false. -/
def Memory.allocate (m : Memory) (T : Element) (additional_size : Int) :
    Memory × Int :=
  m.allocate_ T additional_size false

/-- Memory::allocate_raw: allocate_ with is_raw = true. -/
def Memory.allocate_raw (m : Memory) (T : Element) (additional_size : Int) :
    Memory × Int :=
  m.allocate_ T additional_size true

/-- Ptr::cast from src/memory.rs: reads the header word at the pointer,
compares its tag field with T::tag(), and returns the retyped pointer on
success or the error value otherwise. -/
def Ptr.cast (S : Element) (m : Memory) (p : Int) : Except String Int :=
  if Header.decodeTag (m.data p) = S.tag then Except.ok p
  else Except.error "invalid memory chunk"

/-- Ptr::cast_mut from src/memory.rs: same tag check as cast, returning a
mutable reference; the reference is modelled by the retyped pointer. -/
def Ptr.cast_mut (S : Element) (m : Memory) (p : Int) : Except String Int :=
  if Header.decodeTag (m.data p) = S.tag then Except.ok p
  else Except.error "invalid memory chunk"

/-- Ptr::modify from src/memory.rs: f(self.cast_mut::<T>().unwrap()).
The caller-visible effect of the closure on the memory is abstracted as f;
the unwrap panic on a failed cast is modelled as none. -/
def Ptr.modify (T : Element) (m : Memory) (p : Int) (f : Memory → Memory) :
    Option Memory :=
  match Ptr.cast_mut T m p with
  | Except.ok _ => some (f m)
  | Except.error _ => none

/-- Memory::collect from src/memory.rs: the body of the function is empty,
so the memory and the roots are returned unchanged. -/
def Memory.collect {α : Type} (m : Memory) (roots : α) : Memory × α :=
  (m, roots)

/-- One allocation request of a sequence: the chunk type, the caller
supplied additional size, and the is_raw flag. -/
structure AllocReq where
  elem : Element
  add : Int
  raw : Bool

/-- Total chunk length of a request: one header word plus the payload
size T::size() + additional_size. -/
def AllocReq.chunkLen (r : AllocReq) : Int := r.elem.size + r.add + 1

/-- A sequence of allocations, returning the final memory and the list of
(pointer, chunk length) pairs of the issued chunks. -/
def Memory.allocSeq : Memory → List AllocReq → Memory × List (Int × Int)
  | m, [] => (m, [])
  | m, r :: rs =>
    let res := m.allocate_ r.elem r.add r.raw
    let rest := res.1.allocSeq rs
    (rest.1, (res.2, r.chunkLen) :: rest.2)

/-- Fresh ten-word memory whose backing storage is all zero, as built by
the tests in src/memory.rs. -/
def m0 : Memory := Memory.new (fun _ => 0) 10

/-- Memory after one raw Number allocation on m0; its chunk header sits at
offset 0. -/
def mW : Memory := (m0.allocate_ numberElem 0 true).1

/-- Memory whose words 1 and 2 both hold the reference value 3, modelling
two cells that reference the same chunk at offset 3. -/
def mShare : Memory :=
  Memory.new (fun j => if j = 1 ∨ j = 2 then 3 else 0) 10

/-- Memory after two raw Number allocations on m0: chunks at offsets 0 and
2, free offset 4. -/
def c1mem : Memory :=
  ((m0.allocate_ numberElem 0 true).1.allocate_ numberElem 0 true).1

/-- Memory over a one-word backing array: any Number allocation needs two
words, more than the remaining capacity. -/
def c2mem : Memory := Memory.new (fun _ => 0) 1

/-- Two concrete allocation requests: a raw Number chunk and a Pair chunk. -/
def c4reqs : List AllocReq := [⟨numberElem, 0, true⟩, ⟨pairElem, 0, false⟩]

/-- C5: the header codec round-trips every in-range triple: decoding the
word encoded from (is_raw, tag, size) with tag below 2 to the 7 and size
below 2 to the 56 yields exactly the same triple. -/
theorem header_encode_decode_roundtrip (is_raw : Bool) (tag size : Nat)
    (htag : tag < 128) (hsize : size < 72057594037927936) :
    Header.decodeIsRaw (Header.encode is_raw tag size) = is_raw ∧
    Header.decodeTag (Header.encode is_raw tag size) = tag ∧
    Header.decodeSize (Header.encode is_raw tag size) = size := by
  unfold Header.encode Header.decodeIsRaw Header.decodeTag Header.decodeSize
  cases is_raw <;>
    simp only [boolBit, cond_true, cond_false, beq_iff_eq,
      beq_eq_false_iff_ne, ne_eq] <;>
    refine ⟨by omega, by omega, by omega⟩

/-- Witness for C5 at the concrete triple (true, 5, 300). -/
theorem header_encode_decode_roundtrip_witness :
    Header.decodeIsRaw (Header.encode true 5 300) = true ∧
    Header.decodeTag (Header.encode true 5 300) = 5 ∧
    Header.decodeSize (Header.encode true 5 300) = 300 :=
  header_encode_decode_roundtrip true 5 300 (by decide) (by decide)

/-- C9: Memory::collect has an empty body, so it changes nothing: the
memory (free pointer, backing storage, capacity) and the roots are
returned exactly as given. -/
theorem collect_identity {α : Type} (m : Memory) (roots : α) :
    Memory.collect m roots = (m, roots) := rfl

/-- Decoding the tag field of a header built by Header::initialize gives
the tag reduced to its 7-bit field. -/
lemma decodeTag_init (is_raw : Bool) (tag size : Nat) :
    Header.decodeTag (Header.init is_raw tag size) = tag % 128 := by
  unfold Header.init Header.encode Header.decodeTag
  cases is_raw <;> simp only [boolBit, cond_true, cond_false] <;> omega

/-- Allocation returns the old free offset as the pointer and stores the
header word there. -/
lemma allocate_data_at_ptr (m : Memory) (T : Element) (add : Int)
    (is_raw : Bool) :
    (m.allocate_ T add is_raw).2 = m.free ∧
    (m.allocate_ T add is_raw).1.data m.free =
      Header.init is_raw T.tag (T.size + add).natAbs := by
  refine ⟨rfl, ?_⟩
  simp [Memory.allocate_, writeWord]

/-- C3: Ptr::cast succeeds, returning the pointer retyped to S, exactly
when the tag stored in the chunk header equals the declared tag of S; on a
chunk freshly allocated for T (with T's declared tag inside the 7-bit tag
field), cast to T succeeds and cast to any S with a different declared tag
fails. -/
theorem cast_ok_iff_tag_matches (S T : Element) (m : Memory) (add : Int)
    (is_raw : Bool) (p : Int) (hT : T.tag < 128) (hne : S.tag ≠ T.tag) :
    (Ptr.cast S m p = Except.ok p ↔ Header.decodeTag (m.data p) = S.tag) ∧
    Ptr.cast T (m.allocate_ T add is_raw).1 (m.allocate_ T add is_raw).2 =
      Except.ok (m.allocate_ T add is_raw).2 ∧
    Ptr.cast S (m.allocate_ T add is_raw).1 (m.allocate_ T add is_raw).2 =
      Except.error "invalid memory chunk" := by
  have hdata := (allocate_data_at_ptr m T add is_raw).2
  have hptr : (m.allocate_ T add is_raw).2 = m.free := rfl
  refine ⟨?_, ?_, ?_⟩
  · unfold Ptr.cast
    split <;> simp_all
  · rw [hptr]
    unfold Ptr.cast
    rw [hdata, decodeTag_init, Nat.mod_eq_of_lt hT]
    simp
  · rw [hptr]
    unfold Ptr.cast
    rw [hdata, decodeTag_init, Nat.mod_eq_of_lt hT]
    simp [Ne.symm hne]

/-- Witness for C3: in m0, casting the chunk freshly allocated for Number
to Number succeeds and casting it to Pair fails. -/
theorem cast_ok_iff_tag_matches_witness :
    (Ptr.cast pairElem m0 0 = Except.ok 0 ↔
      Header.decodeTag (m0.data 0) = pairElem.tag) ∧
    Ptr.cast numberElem (m0.allocate_ numberElem 0 false).1
      (m0.allocate_ numberElem 0 false).2 =
      Except.ok (m0.allocate_ numberElem 0 false).2 ∧
    Ptr.cast pairElem (m0.allocate_ numberElem 0 false).1
      (m0.allocate_ numberElem 0 false).2 =
      Except.error "invalid memory chunk" :=
  cast_ok_iff_tag_matches pairElem numberElem m0 0 false 0
    (by decide) (by decide)

/-- C10: Ptr::modify unwraps the failed cast, so it aborts (modelled as
none) exactly when the stored tag differs from T's declared tag, and it
applies the supplied function exactly when the tags match. -/
theorem modify_fails_iff_tag_mismatch (T : Element) (m : Memory) (p : Int)
    (f : Memory → Memory) :
    (Ptr.modify T m p f = none ↔ Header.decodeTag (m.data p) ≠ T.tag) ∧
    (Header.decodeTag (m.data p) = T.tag → Ptr.modify T m p f = some (f m)) := by
  unfold Ptr.modify Ptr.cast_mut
  by_cases hc : Header.decodeTag (m.data p) = T.tag <;> simp [hc]

/-- Witness for C10 on the memory holding one raw Number chunk at offset
0: modify as Number applies the function, modify as Pair aborts. -/
theorem modify_fails_iff_tag_mismatch_witness :
    Ptr.modify numberElem mW 0 id = some (id mW) ∧
    Ptr.modify pairElem mW 0 id = none :=
  ⟨(modify_fails_iff_tag_mismatch numberElem mW 0 id).2 (by decide),
   (modify_fails_iff_tag_mismatch pairElem mW 0 id).1.mpr (by decide)⟩

/-- C8: across a collect pass, any two reference words that were equal
before the pass are equal after it, and the roots are returned unchanged:
sharing is preserved because collect leaves every word of the arena and
every root exactly as it found them. -/
theorem collect_preserves_reference_equality {α : Type} (m : Memory)
    (roots : α) (i j : Int) (h : m.data i = m.data j) :
    (Memory.collect m roots).1.data i = (Memory.collect m roots).1.data j ∧
    (Memory.collect m roots).2 = roots :=
  ⟨h, rfl⟩

/-- Witness for C8 on the memory whose words 1 and 2 reference the same
chunk at offset 3. -/
theorem collect_preserves_reference_equality_witness :
    (Memory.collect mShare (0 : Int)).1.data 1 =
      (Memory.collect mShare (0 : Int)).1.data 2 ∧
    (Memory.collect mShare (0 : Int)).2 = 0 :=
  collect_preserves_reference_equality mShare 0 1 2 (by decide)

/-- C1 failing input: c1mem holds two Number chunks (free offset 4) and
the root points at the chunk at offset 0, so the reachable closure is that
single 2-word chunk; yet collect leaves the free offset at 4, keeps the
unreachable chunk at offset 2 intact (its header still decodes to the
Number tag), and returns the root unchanged - no new arena restricted to
the reachable closure is produced. -/
theorem collect_leaves_unreachable_chunk :
    (Memory.collect c1mem (0 : Int)).1.free = 4 ∧
    (Memory.collect c1mem (0 : Int)).1.data 2 = c1mem.data 2 ∧
    Header.decodeTag ((Memory.collect c1mem (0 : Int)).1.data 2) =
      numberElem.tag ∧
    (Memory.collect c1mem (0 : Int)).2 = 0 ∧ (4 : Int) ≠ 2 := by
  refine ⟨rfl, rfl, by decide, rfl, by decide⟩

/-- C2 failing input: c2mem has capacity 1, while a Number chunk needs 2
words; allocate_ still returns pointer 0, advances the free offset to 2
(past the capacity) and writes the header word - it neither reports
OutOfMemory nor leaves the state unchanged. -/
theorem allocate_exceeds_capacity_unchecked :
    (c2mem.allocate_ numberElem 0 false).1.free = 2 ∧
    c2mem.capacity = 1 ∧
    (c2mem.allocate_ numberElem 0 false).1.data 0 ≠ c2mem.data 0 ∧
    (c2mem.allocate_ numberElem 0 false).2 = 0 := by
  refine ⟨by decide, rfl, by decide, rfl⟩

/-- Counterexample for C6: there is no fixed value (in particular no
encoding of the Empty cell) that allocation stores into the payload word
of a fresh Number chunk - the payload word after allocate_ still holds
whatever the backing storage held before. -/
theorem allocate_does_not_initialize_payload :
    ¬ ∃ empty : Nat, ∀ v : Nat,
      ((Memory.new (fun j => if j = 1 then v else 0) 4).allocate_
        numberElem 0 false).1.data 1 = empty := by
  rintro ⟨e, h⟩
  have h7 := h 7
  have h9 := h 9
  simp [Memory.new, Memory.allocate_, writeWord] at h7 h9
  omega

/-- C6 amended: allocate_ writes exactly one word, the header at the old
free offset; every other word of the backing storage - in particular every
payload word of the new chunk - is left with its prior contents, so the
payload Cells are initialized by the value constructors, not by allocate. -/
theorem allocate_preserves_payload_words (m : Memory) (T : Element)
    (add : Int) (is_raw : Bool) (i : Int) (h : i ≠ m.free) :
    (m.allocate_ T add is_raw).1.data i = m.data i ∧
    (m.allocate_ T add is_raw).1.data m.free =
      Header.init is_raw T.tag (T.size + add).natAbs := by
  refine ⟨?_, (allocate_data_at_ptr m T add is_raw).2⟩
  simp [Memory.allocate_, writeWord, h]

/-- Witness for the amended C6 at payload word 1 of a fresh Number chunk
in m0. -/
theorem allocate_preserves_payload_words_witness :
    (m0.allocate_ numberElem 0 false).1.data 1 = m0.data 1 ∧
    (m0.allocate_ numberElem 0 false).1.data m0.free =
      Header.init false numberElem.tag (numberElem.size + 0).natAbs :=
  allocate_preserves_payload_words m0 numberElem 0 false 1 (by decide)

/-- Allocation advances the free offset by the chunk length, header word
included. -/
lemma allocate_free_eq (m : Memory) (T : Element) (add : Int) (r : Bool) :
    (m.allocate_ T add r).1.free = m.free + (T.size + add + 1) := rfl

/-- Allocation returns the old free offset as the pointer. -/
lemma allocate_ptr_eq (m : Memory) (T : Element) (add : Int) (r : Bool) :
    (m.allocate_ T add r).2 = m.free := rfl

/-- Unfolding equation for the chunk length of a request. -/
lemma chunkLen_eq (r : AllocReq) :
    r.chunkLen = r.elem.size + r.add + 1 := rfl

/-- Free offset after a sequence of allocations: the initial free offset
plus the sum of the chunk lengths. -/
lemma allocSeq_free_eq (rs : List AllocReq) (m : Memory) :
    (m.allocSeq rs).1.free = m.free + (rs.map AllocReq.chunkLen).sum := by
  induction rs generalizing m with
  | nil => simp [Memory.allocSeq]
  | cons r rs ih =>
    simp only [Memory.allocSeq, List.map_cons, List.sum_cons]
    rw [ih, allocate_free_eq, chunkLen_eq]
    omega

/-- Sum of the chunk lengths of requests with nonnegative payload size is
nonnegative. -/
lemma chunkLen_sum_nonneg (rs : List AllocReq)
    (h : ∀ r ∈ rs, (0 : Int) ≤ r.elem.size + r.add) :
    0 ≤ (rs.map AllocReq.chunkLen).sum := by
  induction rs with
  | nil => simp
  | cons r rs ih =>
    have h1 := h r (List.mem_cons_self r rs)
    have h2 := ih fun x hx => h x (List.mem_cons_of_mem r hx)
    have hcl := chunkLen_eq r
    simp only [List.map_cons, List.sum_cons]
    omega

/-- Every chunk issued by a sequence of allocations with nonnegative
payload sizes lies between the initial and the final free offset. -/
lemma allocSeq_chunk_bounds (rs : List AllocReq) (m : Memory)
    (h : ∀ r ∈ rs, (0 : Int) ≤ r.elem.size + r.add) :
    ∀ pl ∈ (m.allocSeq rs).2,
      m.free ≤ pl.1 ∧ pl.1 + pl.2 ≤ (m.allocSeq rs).1.free := by
  induction rs generalizing m with
  | nil => simp [Memory.allocSeq]
  | cons r rs ih =>
    intro pl hpl
    have h1 := h r (List.mem_cons_self r rs)
    have htail : ∀ x ∈ rs, (0 : Int) ≤ x.elem.size + x.add :=
      fun x hx => h x (List.mem_cons_of_mem r hx)
    have hsum := chunkLen_sum_nonneg rs htail
    simp only [Memory.allocSeq, List.mem_cons] at hpl ⊢
    have hp2 := allocate_ptr_eq m r.elem r.add r.raw
    have hcl := chunkLen_eq r
    rcases hpl with rfl | hmem
    · constructor
      · omega
      · rw [allocSeq_free_eq, allocate_free_eq]
        omega
    · have hb := ih (m.allocate_ r.elem r.add r.raw).1 htail pl hmem
      rw [allocate_free_eq] at hb
      exact ⟨by omega, hb.2⟩

/-- The chunks issued by a sequence of allocations with nonnegative
payload sizes are pairwise disjoint: each earlier chunk ends at or before
each later chunk starts. -/
lemma allocSeq_disjoint (rs : List AllocReq) (m : Memory)
    (h : ∀ r ∈ rs, (0 : Int) ≤ r.elem.size + r.add) :
    List.Pairwise (fun a b : Int × Int => a.1 + a.2 ≤ b.1)
      (m.allocSeq rs).2 := by
  induction rs generalizing m with
  | nil => simp [Memory.allocSeq]
  | cons r rs ih =>
    have htail : ∀ x ∈ rs, (0 : Int) ≤ x.elem.size + x.add :=
      fun x hx => h x (List.mem_cons_of_mem r hx)
    simp only [Memory.allocSeq]
    refine List.Pairwise.cons ?_ (ih _ htail)
    intro b hb
    have hbound :=
      (allocSeq_chunk_bounds rs (m.allocate_ r.elem r.add r.raw).1
        htail b hb).1
    rw [allocate_free_eq] at hbound
    have hp2 := allocate_ptr_eq m r.elem r.add r.raw
    have hcl := chunkLen_eq r
    omega

/-- C4 amended: over any sequence of allocations whose payload sizes
T::size() + additional_size are all nonnegative, the free offset only
increases, the words used after the sequence equal the initial free offset
plus the sum of the chunk lengths (header word plus payload words each),
and the issued chunks occupy pairwise disjoint ranges. Without the
nonnegativity restriction the property fails, because allocate_ accepts a
negative additional_size and moves the free pointer backwards. -/
theorem allocSeq_monotone_sum_disjoint (m : Memory) (rs : List AllocReq)
    (h : ∀ r ∈ rs, (0 : Int) ≤ r.elem.size + r.add) :
    m.free ≤ (m.allocSeq rs).1.free ∧
    (m.allocSeq rs).1.free = m.free + (rs.map AllocReq.chunkLen).sum ∧
    List.Pairwise (fun a b : Int × Int => a.1 + a.2 ≤ b.1)
      (m.allocSeq rs).2 := by
  refine ⟨?_, allocSeq_free_eq rs m, allocSeq_disjoint rs m h⟩
  have := chunkLen_sum_nonneg rs h
  rw [allocSeq_free_eq rs m]
  omega

/-- Witness for the amended C4: a raw Number chunk followed by a Pair
chunk on m0, ending with free offset 5 = 2 + 3. -/
theorem allocSeq_monotone_sum_disjoint_witness :
    (m0.free ≤ (m0.allocSeq c4reqs).1.free ∧
     (m0.allocSeq c4reqs).1.free =
       m0.free + (c4reqs.map AllocReq.chunkLen).sum ∧
     List.Pairwise (fun a b : Int × Int => a.1 + a.2 ≤ b.1)
       (m0.allocSeq c4reqs).2) ∧
    (m0.allocSeq c4reqs).1.free = 5 :=
  ⟨allocSeq_monotone_sum_disjoint m0 c4reqs (by decide), by decide⟩

/-- Counterexample for C4 as stated: a single successful allocation with
the caller-supplied additional size -3 makes the free offset decrease
(from 0 to -1), so the free offset does not only increase and the used
words do not equal the sum of the chunks' total sizes. -/
theorem allocate_negative_size_decreases_free :
    (m0.allocate_ numberElem (-3) false).1.free < m0.free := by decide

end Slip
